import Mathlib

/-!
A shallow embedding of the `ricsdl` Shared Data Layer (SDL) library
(`ricsdl/syncstorage.py`, `ricsdl/backend/fake_dict_db.py`,
`ricsdl/backend/redis.py`, `ricsdl/configuration.py`) together with proofs
about its key/value operations, publish combinators, locks, wire-key
encoding and configuration completion.

Python dictionaries are modelled as association lists in insertion order
whose update operation keeps keys unique, byte strings as lists of byte
values, and fallible methods return `Except`.
-/

set_option autoImplicit false

namespace RicSdl

/-- Byte strings (Python `bytes`) are modelled as lists of byte values. -/
abbrev Bytes := List Nat

/-- A Python dict with string keys, as an association list in insertion
order; the update operation below keeps keys unique, as a dict does. -/
abbrev Dict (β : Type) := List (String × β)

/-- First-match lookup, i.e. Python `d[k]` (with `none` for `k not in d`). -/
def lookupK {β : Type} : Dict β → String → Option β
  | [], _ => none
  | (k', v) :: t, k => if k' = k then some v else lookupK t k

/-- Python `d[k] = v` on a dict: overwrite in place when the key is present,
append at the end otherwise. -/
def pySetKey {β : Type} : Dict β → String → β → Dict β
  | [], k, v => [(k, v)]
  | (k', v') :: t, k, v => if k' = k then (k', v) :: t else (k', v') :: pySetKey t k v

/-- Python `d.update(m)`: assign each pair of `m` into `d` in order. -/
def pyUpdate {β : Type} (d : Dict β) (m : Dict β) : Dict β :=
  m.foldl (fun acc p => pySetKey acc p.1 p.2) d

/-- Embeds `FakeDictBackend.set`: `self._db.update(data_map.copy())`.  The namespace
argument is accepted and ignored, exactly as in the source, where the fake
backend stores every key in one shared dict. -/
def FakeDictBackend.set (_ns : String) (db : Dict Bytes) (data_map : Dict Bytes) :
    Dict Bytes :=
  pyUpdate db data_map

/-- The loop body of `FakeDictBackend.get`: `ret = {}; for k in keys: if k in
self._db: ret[k] = self._db[k]`. -/
def FakeDictBackend.getLoop (db : Dict Bytes) : List String → Dict Bytes → Dict Bytes
  | [], ret => ret
  | k :: ks, ret =>
    match lookupK db k with
    | some v => FakeDictBackend.getLoop db ks (pySetKey ret k v)
    | none => FakeDictBackend.getLoop db ks ret

/-- Embeds `FakeDictBackend.get`: collect the present keys into a fresh dict.  The
namespace argument is ignored as in the source. -/
def FakeDictBackend.get (_ns : String) (db : Dict Bytes) (keys : List String) :
    Dict Bytes :=
  FakeDictBackend.getLoop db keys []

/-- Embeds `FakeDictBackend.set_if`: compare-and-swap against the stored value;
returns whether the swap happened, together with the resulting store. -/
def FakeDictBackend.set_if (_ns : String) (db : Dict Bytes) (key : String)
    (old_data new_data : Bytes) : Bool × Dict Bytes :=
  match lookupK db key with
  | none => (false, db)
  | some db_data =>
    if db_data = old_data then (true, pySetKey db key new_data) else (false, db)

/-- Code-point lexicographic comparison of character lists, the order Python
`sorted` uses on strings. -/
def charsLe : List Char → List Char → Bool
  | [], _ => true
  | _ :: _, [] => false
  | a :: as, b :: bs => if a.toNat = b.toNat then charsLe as bs else Nat.blt a.toNat b.toNat

/-- Python's `<=` on strings: code-point lexicographic. -/
def strLe (x y : String) : Bool := charsLe x.toList y.toList

/-- Insertion step of Python `sorted` on strings (used by the facade's `get`). -/
def SyncStorage.insertStr (x : String) : List String → List String
  | [] => [x]
  | y :: ys => if strLe x y then x :: y :: ys else y :: SyncStorage.insertStr x ys

/-- Python `sorted` on a list of strings, as insertion sort (the claims only
depend on the result being a permutation). -/
def SyncStorage.sortedStrings : List String → List String
  | [] => []
  | x :: xs => SyncStorage.insertStr x (SyncStorage.sortedStrings xs)

/-- Embeds `SyncStorage.get` after the `list(keys)` conversion of its `keys`
argument: ask the backend, then return
`{k: disordered[k] for k in sorted(disordered)}`. -/
def SyncStorage.get (ns : String) (db : Dict Bytes) (keyList : List String) :
    Dict Bytes :=
  let disordered := FakeDictBackend.get ns db keyList
  (SyncStorage.sortedStrings (disordered.map Prod.fst)).filterMap
    (fun k => (lookupK disordered k).map (fun v => (k, v)))

/-- Embeds `SyncStorage.set`: validate the (here well-typed) key/value dict and
delegate to the backend. -/
def SyncStorage.set (ns : String) (db : Dict Bytes) (data_map : Dict Bytes) :
    Dict Bytes :=
  FakeDictBackend.set ns db data_map

/-- Embeds `SyncStorage.set_if`: delegate to the backend. -/
def SyncStorage.set_if (ns : String) (db : Dict Bytes) (key : String)
    (old_data new_data : Bytes) : Bool × Dict Bytes :=
  FakeDictBackend.set_if ns db key old_data new_data

/-! ### Association-list lemmas about the dict model -/

theorem lookupK_pySetKey_self {β : Type} (d : Dict β) (k : String) (v : β) :
    lookupK (pySetKey d k v) k = some v := by
  induction d with
  | nil => simp [pySetKey, lookupK]
  | cons p t ih =>
    obtain ⟨k', v'⟩ := p
    by_cases h : k' = k
    · simp [pySetKey, h, lookupK]
    · simp [pySetKey, h, lookupK, ih]

theorem lookupK_pySetKey_ne {β : Type} (d : Dict β) {k' k : String} (v : β)
    (h : k' ≠ k) : lookupK (pySetKey d k' v) k = lookupK d k := by
  induction d with
  | nil => simp [pySetKey, lookupK, h]
  | cons p t ih =>
    obtain ⟨a, b⟩ := p
    by_cases ha : a = k'
    · subst ha
      simp [pySetKey, lookupK, h]
    · simp [pySetKey, ha, lookupK, ih]

theorem pyUpdate_cons {β : Type} (d : Dict β) (p : String × β) (m : Dict β) :
    pyUpdate d (p :: m) = pyUpdate (pySetKey d p.1 p.2) m := rfl

theorem lookupK_pyUpdate_not_mem {β : Type} (d m : Dict β) (k : String)
    (h : k ∉ m.map Prod.fst) : lookupK (pyUpdate d m) k = lookupK d k := by
  induction m generalizing d with
  | nil => rfl
  | cons p t ih =>
    rw [pyUpdate_cons]
    have h1 : p.1 ≠ k := fun e => h (by simp [e])
    have h2 : k ∉ t.map Prod.fst := fun hm => h (by simp [hm])
    rw [ih _ h2, lookupK_pySetKey_ne d p.2 h1]

theorem lookupK_pyUpdate_mem {β : Type} (d m : Dict β) (k : String)
    (hnd : (m.map Prod.fst).Nodup) (hmem : k ∈ m.map Prod.fst) :
    lookupK (pyUpdate d m) k = lookupK m k := by
  induction m generalizing d with
  | nil => simp at hmem
  | cons p t ih =>
    rw [List.map_cons] at hnd hmem
    rw [pyUpdate_cons]
    have hhd : p.1 ∉ t.map Prod.fst := (List.nodup_cons.mp hnd).1
    by_cases hk : p.1 = k
    · subst hk
      rw [lookupK_pyUpdate_not_mem _ _ _ hhd, lookupK_pySetKey_self]
      obtain ⟨a, b⟩ := p
      simp [lookupK]
    · have hkt : k ∈ t.map Prod.fst := by
        rcases List.mem_cons.mp hmem with h | h
        · exact absurd h.symm hk
        · exact h
      rw [ih _ (List.nodup_cons.mp hnd).2 hkt]
      obtain ⟨a, b⟩ := p
      simp only at hk
      simp [lookupK, hk]

theorem lookupK_isSome_of_mem {β : Type} (m : Dict β) (k : String)
    (h : k ∈ m.map Prod.fst) : (lookupK m k).isSome := by
  induction m with
  | nil => simp at h
  | cons p t ih =>
    obtain ⟨a, b⟩ := p
    rw [List.map_cons] at h
    by_cases hk : a = k
    · simp [lookupK, hk]
    · have : k ∈ t.map Prod.fst := by
        rcases List.mem_cons.mp h with h' | h'
        · exact absurd h'.symm hk
        · exact h'
      simp [lookupK, hk, ih this]

theorem pySetKey_not_mem {β : Type} (d : Dict β) (k : String) (v : β)
    (h : k ∉ d.map Prod.fst) : pySetKey d k v = d ++ [(k, v)] := by
  induction d with
  | nil => rfl
  | cons p t ih =>
    obtain ⟨a, b⟩ := p
    have ha : a ≠ k := fun e => h (by simp [e])
    simp [pySetKey, ha, ih (fun hm => h (by simp [hm]))]

theorem FakeDictBackend.getLoop_spec (db : Dict Bytes) :
    ∀ (ks : List String) (ret : Dict Bytes), ks.Nodup →
    (∀ k ∈ ks, (lookupK db k).isSome) →
    (∀ k ∈ ks, k ∉ ret.map Prod.fst) →
    FakeDictBackend.getLoop db ks ret
      = ret ++ ks.filterMap (fun k => (lookupK db k).map (fun v => (k, v)))
  | [], ret, _, _, _ => by simp [FakeDictBackend.getLoop]
  | k :: ks, ret, hnd, hall, hdis => by
    obtain ⟨v, hv⟩ := Option.isSome_iff_exists.mp (hall k (by simp))
    have hknotks : k ∉ ks := (List.nodup_cons.mp hnd).1
    have hstep : pySetKey ret k v = ret ++ [(k, v)] :=
      pySetKey_not_mem ret k v (hdis k (by simp))
    have ih := FakeDictBackend.getLoop_spec db ks (pySetKey ret k v)
      (List.nodup_cons.mp hnd).2
      (fun k' hk' => hall k' (by simp [hk']))
      (by
        intro k' hk'
        rw [hstep]
        simp only [List.map_append, List.mem_append]
        rintro (h' | h')
        · exact hdis k' (by simp [hk']) h'
        · simp at h'
          exact hknotks (h' ▸ hk'))
    simp only [FakeDictBackend.getLoop, hv]
    rw [ih, hstep, List.filterMap_cons, hv]
    simp

theorem FakeDictBackend.get_eq (ns : String) (db : Dict Bytes) (ks : List String)
    (hnd : ks.Nodup) (hall : ∀ k ∈ ks, (lookupK db k).isSome) :
    FakeDictBackend.get ns db ks
      = ks.filterMap (fun k => (lookupK db k).map (fun v => (k, v))) := by
  simpa [FakeDictBackend.get] using
    FakeDictBackend.getLoop_spec db ks [] hnd hall (by simp)

theorem map_fst_filterMap_lookup (db : Dict Bytes) (ks : List String)
    (hall : ∀ k ∈ ks, (lookupK db k).isSome) :
    (ks.filterMap (fun k => (lookupK db k).map (fun v => (k, v)))).map Prod.fst
      = ks := by
  induction ks with
  | nil => rfl
  | cons k t ih =>
    obtain ⟨v, hv⟩ := Option.isSome_iff_exists.mp (hall k (by simp))
    simp [List.filterMap_cons, hv, ih (fun k' hk' => hall k' (by simp [hk']))]

theorem filterMapConsSome {α β : Type} (f : α → Option β) (a : α) (l : List α)
    (b : β) (h : f a = some b) : (a :: l).filterMap f = b :: l.filterMap f := by
  simp [List.filterMap_cons, h]

theorem lookupK_filterMap_lookup (db : Dict Bytes) (ks : List String) (k : String)
    (hmem : k ∈ ks) (hall : ∀ k' ∈ ks, (lookupK db k').isSome) :
    lookupK (ks.filterMap (fun k' => (lookupK db k').map (fun v => (k', v)))) k
      = lookupK db k := by
  induction ks with
  | nil => simp at hmem
  | cons a t ih =>
    obtain ⟨v, hv⟩ := Option.isSome_iff_exists.mp (hall a (by simp))
    rw [filterMapConsSome _ _ _ (a, v) (by simp [hv])]
    by_cases hak : a = k
    · subst hak
      simp [lookupK, hv]
    · rw [show lookupK ((a, v)
          :: t.filterMap (fun k' => (lookupK db k').map (fun v => (k', v)))) k
          = lookupK (t.filterMap (fun k' => (lookupK db k').map (fun v => (k', v)))) k by
        simp [lookupK, hak]]
      have hmt : k ∈ t := by
        rcases List.mem_cons.mp hmem with h | h
        · exact absurd h.symm hak
        · exact h
      exact ih hmt (fun k' hk' => hall k' (by simp [hk']))

theorem filterMapCongr {α β : Type} (l : List α) (f g : α → Option β)
    (h : ∀ a ∈ l, f a = g a) : l.filterMap f = l.filterMap g := by
  induction l with
  | nil => rfl
  | cons a t ih =>
    rw [List.filterMap_cons, List.filterMap_cons, h a (by simp),
      ih (fun a' ha' => h a' (by simp [ha']))]

theorem filterMap_lookup_self {β : Type} (m : Dict β)
    (hnd : (m.map Prod.fst).Nodup) :
    (m.map Prod.fst).filterMap (fun k => (lookupK m k).map (fun v => (k, v))) = m := by
  induction m with
  | nil => rfl
  | cons p t ih =>
    obtain ⟨a, b⟩ := p
    rw [List.map_cons] at hnd
    have ha : a ∉ t.map Prod.fst := (List.nodup_cons.mp hnd).1
    have hcongr : ∀ k ∈ t.map Prod.fst,
        (lookupK ((a, b) :: t) k).map (fun v => (k, v))
          = (lookupK t k).map (fun v => (k, v)) := by
      intro k hk
      have hak : a ≠ k := fun e => ha (e ▸ hk)
      simp [lookupK, hak]
    rw [List.map_cons,
      filterMapConsSome _ _ _ (a, b) (by simp [lookupK]),
      filterMapCongr _ _ _ hcongr, ih (List.nodup_cons.mp hnd).2]

theorem insertStr_perm (x : String) (l : List String) :
    List.Perm (SyncStorage.insertStr x l) (x :: l) := by
  induction l with
  | nil => exact List.Perm.refl _
  | cons y ys ih =>
    by_cases h : strLe x y
    · simp [SyncStorage.insertStr, h]
    · simp only [SyncStorage.insertStr, h, Bool.false_eq_true, if_false]
      exact (ih.cons y).trans (List.Perm.swap x y ys)

theorem sortedStrings_perm (l : List String) :
    List.Perm (SyncStorage.sortedStrings l) l := by
  induction l with
  | nil => exact List.Perm.refl _
  | cons x xs ih => exact (insertStr_perm x _).trans (ih.cons x)

/-! ### C1: set/get round trip -/

/-- Claim C1: Round trip: for every namespace `ns`, every key/value map `m`
with (dict-)unique keys, and every enumeration `ks` of the keys of `m`,
`SyncStorage.get` called right after `SyncStorage.set ns m` on those keys
returns exactly the map `m` (the same key/value pairs; the facade returns
them in sorted key order). -/
theorem set_get_round_trip (ns : String) (db m : Dict Bytes) (ks : List String)
    (hnd : (m.map Prod.fst).Nodup) (hks : List.Perm ks (m.map Prod.fst)) :
    List.Perm (SyncStorage.get ns (SyncStorage.set ns db m) ks) m := by
  have hksnd : ks.Nodup := (List.Perm.nodup_iff hks).mpr hnd
  have hmemks : ∀ k ∈ ks, k ∈ m.map Prod.fst := fun k hk => hks.mem_iff.mp hk
  have hlook : ∀ k ∈ ks,
      lookupK (SyncStorage.set ns db m) k = lookupK m k := fun k hk =>
    lookupK_pyUpdate_mem db m k hnd (hmemks k hk)
  have hall : ∀ k ∈ ks, (lookupK (SyncStorage.set ns db m) k).isSome := by
    intro k hk
    rw [hlook k hk]
    exact lookupK_isSome_of_mem m k (hmemks k hk)
  have hget := FakeDictBackend.get_eq ns (SyncStorage.set ns db m) ks hksnd hall
  simp only [SyncStorage.get, hget]
  rw [map_fst_filterMap_lookup _ _ hall]
  rw [filterMapCongr (SyncStorage.sortedStrings ks) _
    (fun k => (lookupK (SyncStorage.set ns db m) k).map (fun v => (k, v)))
    (by
      intro k hk
      have hkks : k ∈ ks := (sortedStrings_perm ks).mem_iff.mp hk
      rw [lookupK_filterMap_lookup _ _ _ hkks hall])]
  rw [filterMapCongr (SyncStorage.sortedStrings ks) _
    (fun k => (lookupK m k).map (fun v => (k, v)))
    (by
      intro k hk
      rw [hlook k ((sortedStrings_perm ks).mem_iff.mp hk)])]
  have p1 := (sortedStrings_perm ks).filterMap
    (fun k => (lookupK m k).map (fun v => (k, v)))
  have p2 := hks.filterMap (fun k => (lookupK m k).map (fun v => (k, v)))
  have p3 := p1.trans p2
  rw [filterMap_lookup_self m hnd] at p3
  exact p3

/-- Witness for `set_get_round_trip` at a concrete map and key enumeration. -/
theorem set_get_round_trip_witness :
    List.Perm
      (SyncStorage.get "n" (SyncStorage.set "n" [] [("b", [2]), ("a", [1])])
        ["a", "b"])
      [("b", [2]), ("a", [1])] :=
  set_get_round_trip "n" [] [("b", [2]), ("a", [1])] ["a", "b"] (by decide)
    (List.Perm.swap "b" "a" [])

/-! ### C2: compare-and-swap -/

/-- Embeds `FakeDictBackend.set_if` as a single conditional: it swaps exactly when
the stored value equals `old_data`, and otherwise leaves the store as it is. -/
theorem set_if_eq_ite (ns : String) (d : Dict Bytes) (key : String)
    (old_data new_data : Bytes) :
    FakeDictBackend.set_if ns d key old_data new_data
      = if lookupK d key = some old_data then (true, pySetKey d key new_data)
        else (false, d) := by
  unfold FakeDictBackend.set_if
  cases hd : lookupK d key with
  | none => simp
  | some x =>
    by_cases hx : x = old_data
    · subst hx
      simp
    · simp [hx]

/-- Claim C2: Compare-and-swap correctness of `set_if`: it returns true exactly
when the stored value under `key` equals `old_data`, in which case the stored
value becomes `new_data`; otherwise it returns false and leaves the store
unchanged, so a second identical call right after a successful one returns
false (when `old_data` differs from `new_data`). -/
theorem set_if_cas (ns : String) (db : Dict Bytes) (key : String)
    (old_data new_data : Bytes) :
    ((SyncStorage.set_if ns db key old_data new_data).1 = true
        ↔ lookupK db key = some old_data)
    ∧ (lookupK db key = some old_data →
        SyncStorage.set_if ns db key old_data new_data
          = (true, pySetKey db key new_data)
        ∧ lookupK (SyncStorage.set_if ns db key old_data new_data).2 key
            = some new_data)
    ∧ (lookupK db key ≠ some old_data →
        SyncStorage.set_if ns db key old_data new_data = (false, db))
    ∧ (old_data ≠ new_data → lookupK db key = some old_data →
        SyncStorage.set_if ns (SyncStorage.set_if ns db key old_data new_data).2
            key old_data new_data
          = (false, (SyncStorage.set_if ns db key old_data new_data).2)) := by
  have hss : ∀ (d : Dict Bytes),
      SyncStorage.set_if ns d key old_data new_data
        = FakeDictBackend.set_if ns d key old_data new_data := fun _ => rfl
  refine ⟨?_, ?_, ?_, ?_⟩
  · rw [hss, set_if_eq_ite]
    by_cases h : lookupK db key = some old_data <;> simp [h]
  · intro h
    rw [hss, set_if_eq_ite]
    simp [h, lookupK_pySetKey_self]
  · intro h
    rw [hss, set_if_eq_ite]
    simp [h]
  · intro hne h
    rw [hss, hss, set_if_eq_ite, set_if_eq_ite]
    simp only [h, if_pos]
    rw [lookupK_pySetKey_self]
    simp [Ne.symm hne]

/-! ### C3: publish on success only -/

/-- The state of the fake backend that the publish combinators touch: the
shared dict `_db` plus the queue of `(channel, events)` notifications put for
delivery (the bounded `queue.Queue(1)` is modelled as the list of messages
put on it, in order). -/
structure FakeDB where
  db : Dict Bytes
  queue : List (String × List String)
  deriving DecidableEq

/-- Embeds `FakeDictBackend.set_if_and_publish`: run the conditional write, and only
when it took effect put every `(channel, events)` pair on the queue. -/
def FakeDictBackend.set_if_and_publish (ns : String) (s : FakeDB)
    (channels_and_events : List (String × List String)) (key : String)
    (old_data new_data : Bytes) : Bool × FakeDB :=
  match FakeDictBackend.set_if ns s.db key old_data new_data with
  | (true, db2) => (true, ⟨db2, s.queue ++ channels_and_events⟩)
  | (false, db2) => (false, ⟨db2, s.queue⟩)

/-- Claim C3: Publish-on-success only: `set_if_and_publish` returns true and
appends its events to the delivery queue exactly when the guarded conditional
write took effect; when the old-value guard fails it returns false and leaves
both the store and the queue unchanged. -/
theorem set_if_and_publish_on_success (ns : String) (s : FakeDB)
    (cae : List (String × List String)) (key : String)
    (old_data new_data : Bytes) :
    ((FakeDictBackend.set_if_and_publish ns s cae key old_data new_data).1 = true
        ↔ lookupK s.db key = some old_data)
    ∧ (lookupK s.db key = some old_data →
        (FakeDictBackend.set_if_and_publish ns s cae key old_data new_data).2.queue
          = s.queue ++ cae)
    ∧ (lookupK s.db key ≠ some old_data →
        FakeDictBackend.set_if_and_publish ns s cae key old_data new_data
          = (false, s)) := by
  unfold FakeDictBackend.set_if_and_publish
  rw [set_if_eq_ite]
  by_cases h : lookupK s.db key = some old_data
  · simp [h]
  · simp [h]

/-! ### C4: the fake backend does not isolate namespaces -/

/-- Claim C4 counterexample: In the in-memory fake backend a write under
namespace "ns1" changes the result of a read of the same key under the
distinct namespace "ns2": the backend ignores the namespace argument. -/
theorem fake_backend_not_namespace_isolated :
    FakeDictBackend.get "ns2" (FakeDictBackend.set "ns1" [] [("k", [1])]) ["k"]
      ≠ FakeDictBackend.get "ns2" [] ["k"] := by decide

/-- Claim C4 amended: The fake in-memory backend keeps every key in one shared
dict, so a write under any namespace `ns1` is visible to a read of that key
under every namespace `ns2`. -/
theorem fake_backend_shares_one_namespace (ns1 ns2 : String) (db : Dict Bytes)
    (k : String) (v : Bytes) :
    SyncStorage.get ns2 (SyncStorage.set ns1 db [(k, v)]) [k] = [(k, v)] := by
  have h1 : SyncStorage.set ns1 db [(k, v)] = pySetKey db k v := rfl
  have h2 : lookupK (pySetKey db k v) k = some v := lookupK_pySetKey_self db k v
  simp [SyncStorage.get, FakeDictBackend.get, FakeDictBackend.getLoop, h1, h2,
    SyncStorage.sortedStrings, SyncStorage.insertStr, pySetKey, lookupK]

/-! ### C5: lock validity time -/

/-- Embeds `RedisBackendLock.get_validity_time` over the state it reads: the
handle's local token (`self.__redis_lock.local.token`), the token stored in
the database under the lock key, and the key's remaining time to live in
milliseconds as `pttl` reports it.  The embedded Lua script returns `-10`
when no token is stored, `-11` when the stored token differs from the
caller's, and the `pttl` value otherwise; any negative result is turned into
a rejection, and a non-negative one is divided by 1000 (seconds, exact as a
rational, which collapses Python's int/float distinction). -/
def RedisBackendLock.get_validity_time (local_token : Option String)
    (stored_token : Option String) (pttl : Int) : Except String ℚ :=
  match local_token with
  | none => .error "Cannot get validity time of an unlocked lock"
  | some token =>
    let validity : Int :=
      match stored_token with
      | none => -10
      | some st => if st = token then pttl else -11
    if validity < 0 then
      .error "Getting validity time of a lock failed with error code"
    else .ok ((validity : ℚ) / 1000)

/-- Embeds `FakeDictBackendLock.get_validity_time`: the fake lock returns the
configured expiration unconditionally (`return self._lock_expiration`),
whether or not `self._locked` holds. -/
def FakeDictBackendLock.get_validity_time (_locked : Bool)
    (lock_expiration : ℚ) : Except String ℚ :=
  .ok lock_expiration

/-- Claim C5 counterexample: A fake-backend lock handle that does not hold the
lock (`_locked = false`) still gets a validity time back instead of a
rejection: `get_validity_time` ignores the lock state entirely. -/
theorem fake_lock_validity_no_rejection :
    FakeDictBackendLock.get_validity_time false 10 = Except.ok 10 := rfl

/-- Claim C5 amended: For the Redis backend lock, `get_validity_time` fails
with a rejection whenever the handle is not the current holder (its token is
absent, nothing is stored, or the stored token differs), and it returns a
duration only when the caller's token is the stored one (the fake backend
lock instead returns the configured expiration unconditionally). -/
theorem redis_lock_validity_requires_holder (local_token stored_token : Option String)
    (pttl : Int) :
    ((local_token = none ∨ local_token ≠ stored_token) →
      ∃ msg, RedisBackendLock.get_validity_time local_token stored_token pttl
        = .error msg)
    ∧ (∀ q, RedisBackendLock.get_validity_time local_token stored_token pttl
          = .ok q →
        ∃ token, local_token = some token ∧ stored_token = some token
          ∧ 0 ≤ pttl ∧ q = (pttl : ℚ) / 1000) := by
  constructor
  · rintro (h | h)
    · subst h
      exact ⟨_, rfl⟩
    · cases local_token with
      | none => exact ⟨_, rfl⟩
      | some token =>
        cases stored_token with
        | none =>
          refine ⟨"Getting validity time of a lock failed with error code", ?_⟩
          simp [RedisBackendLock.get_validity_time]
        | some st =>
          have hst : st ≠ token := fun e => h (by rw [e])
          refine ⟨"Getting validity time of a lock failed with error code", ?_⟩
          simp [RedisBackendLock.get_validity_time, hst]
  · intro q hq
    cases local_token with
    | none => simp [RedisBackendLock.get_validity_time] at hq
    | some token =>
      cases stored_token with
      | none => simp [RedisBackendLock.get_validity_time] at hq
      | some st =>
        by_cases hst : st = token
        · subst hst
          by_cases hp : pttl < 0
          · simp [RedisBackendLock.get_validity_time, hp] at hq
          · refine ⟨st, rfl, rfl, le_of_not_lt hp, ?_⟩
            simp [RedisBackendLock.get_validity_time, hp] at hq
            exact hq.symm
        · simp [RedisBackendLock.get_validity_time, hst] at hq

/-! ### C6: starting the event listener -/

/-- The fake backend state that `start_event_listener` reads and writes: the
liveness of `self._listen_thread`, the registered channel callbacks
(`self._channel_cbs`, here just the channel names), and the
`self._run_in_thread` flag. -/
structure FakeListener where
  listen_thread_alive : Bool
  channel_cbs : List String
  run_in_thread : Bool
  deriving DecidableEq

/-- Embeds `FakeDictBackend.start_event_listener`: raise when the listener thread is
already running; otherwise start the thread only when at least one channel
callback is registered, and in every non-raising case set `_run_in_thread`. -/
def FakeDictBackend.start_event_listener (s : FakeListener) :
    Except String FakeListener :=
  if s.listen_thread_alive then .error "Event loop already started"
  else if 0 < s.channel_cbs.length then
    .ok ⟨true, s.channel_cbs, true⟩
  else .ok ⟨s.listen_thread_alive, s.channel_cbs, true⟩

/-- Claim C6 counterexample: Starting the managed event loop with zero channel
subscriptions registered is not an error in the code: the call returns
normally, merely without starting the listener thread. -/
theorem start_event_listener_zero_subscriptions_no_error :
    FakeDictBackend.start_event_listener ⟨false, [], false⟩
      = Except.ok ⟨false, [], true⟩ := rfl

/-- Claim C6 amended: `start_event_listener` raises exactly when the delivery
thread is already running — in particular a second start after a first start
that had at least one subscription raises; with zero subscriptions a start
succeeds without starting the thread (it only enables deferred starting),
instead of raising as the spec says. -/
theorem start_event_listener_spec (s : FakeListener) :
    (s.listen_thread_alive = true →
      FakeDictBackend.start_event_listener s = .error "Event loop already started")
    ∧ (s.listen_thread_alive = false → s.channel_cbs.length = 0 →
      FakeDictBackend.start_event_listener s
        = .ok ⟨false, s.channel_cbs, true⟩)
    ∧ (s.listen_thread_alive = false → 0 < s.channel_cbs.length →
      ∀ s', FakeDictBackend.start_event_listener s = .ok s' →
        ∃ msg, FakeDictBackend.start_event_listener s' = .error msg) := by
  refine ⟨?_, ?_, ?_⟩
  · intro h
    simp [FakeDictBackend.start_event_listener, h]
  · intro h hz
    simp [FakeDictBackend.start_event_listener, h, hz]
  · intro h hp s' hs'
    simp [FakeDictBackend.start_event_listener, h, hp] at hs'
    refine ⟨"Event loop already started", ?_⟩
    rw [← hs']
    simp [FakeDictBackend.start_event_listener]

/-! ### C7: channel/event validation precedes the backend -/

/-- The event separator reserved on the wire
(`_Configuration.get_event_separator`). -/
def eventSeparator : String := "___"

/-- The dynamically typed values a caller may pass as channels and events. -/
inductive PyVal where
  | str : String → PyVal
  | lst : List PyVal → PyVal
  | int : Int → PyVal

/-- Does `pat` start the list (character-wise)? -/
def charsStart : List Char → List Char → Bool
  | [], _ => true
  | _ :: _, [] => false
  | a :: as, b :: bs => a = b && charsStart as bs

/-- Does `pat` occur somewhere in the list? -/
def charsContain (pat : List Char) : List Char → Bool
  | [] => charsStart pat []
  | c :: cs => charsStart pat (c :: cs) || charsContain pat cs

/-- Python `sep in s` on strings. -/
def strContains (sep s : String) : Bool := charsContain sep.toList s.toList

/-- The per-event loop of `_validate_channels_events` over an event list:
each element must be a string and must not contain the separator. -/
def SyncStorage.validEventList (sep : String) : List PyVal → Except String Unit
  | [] => .ok ()
  | e :: rest =>
    match e with
    | .str s =>
      if strContains sep s then .error "Events contain illegal substring"
      else SyncStorage.validEventList sep rest
    | _ => .error "Wrong event type"

/-- Embeds `SyncStorage._validate_channels_events`: each channel must be a string;
each events entry must be a string or a list of strings; no event may
contain the separator. -/
def SyncStorage.validate_channels_events (sep : String) :
    List (PyVal × PyVal) → Except String Unit
  | [] => .ok ()
  | (channel, events) :: rest =>
    match channel with
    | .str _ =>
      match events with
      | .str s =>
        if strContains sep s then .error "Events contain illegal substring"
        else SyncStorage.validate_channels_events sep rest
      | .lst l =>
        match SyncStorage.validEventList sep l with
        | .ok _ => SyncStorage.validate_channels_events sep rest
        | .error e => .error e
      | _ => .error "Wrong event type"
    | _ => .error "Wrong channel type"

/-- The string carried by a `PyVal`, when it is one. -/
def pyValToStr : PyVal → Option String
  | .str s => some s
  | _ => none

/-- The facade's normalisation
`channels_and_events[channel] = [events] if isinstance(events, str) else events`,
read back after validation. -/
def normalizeEvents : PyVal → List String
  | .str s => [s]
  | .lst l => l.filterMap pyValToStr
  | _ => []

/-- Embeds `FakeDictBackend.set_and_publish`: update the dict and put every
`(channel, events)` pair on the queue. -/
def FakeDictBackend.set_and_publish (_ns : String) (s : FakeDB)
    (channels_and_events : List (String × List String)) (data_map : Dict Bytes) :
    FakeDB :=
  ⟨pyUpdate s.db data_map, s.queue ++ channels_and_events⟩

/-- Embeds `SyncStorage.set_and_publish` on the fake backend: validate the
channel/event dict first (the key/value dict is well typed here by
construction), and only then normalise and call the backend; a validation
failure raises before any backend operation, leaving the state untouched. -/
def SyncStorage.set_and_publish (ns : String) (s : FakeDB)
    (channels_and_events : List (PyVal × PyVal)) (data_map : Dict Bytes) :
    Except String Unit × FakeDB :=
  match SyncStorage.validate_channels_events eventSeparator channels_and_events with
  | .error e => (.error e, s)
  | .ok _ =>
    let cae := channels_and_events.filterMap
      (fun p => (pyValToStr p.1).map (fun c => (c, normalizeEvents p.2)))
    (.ok (), FakeDictBackend.set_and_publish ns s cae data_map)

/-- Is this `PyVal` a string? -/
def isStrVal : PyVal → Bool
  | .str _ => true
  | _ => false

/-- A channel/event entry the spec calls invalid: a non-string channel, a
non-string non-list events value, or an event (in either form) containing
the reserved separator. -/
def badChannelEvents (sep : String) (p : PyVal × PyVal) : Bool :=
  !isStrVal p.1 ||
    (match p.2 with
     | .str s => strContains sep s
     | .lst l => l.any (fun e =>
        match e with
        | .str s => strContains sep s
        | _ => true)
     | _ => true)

theorem validEventList_error (sep : String) (l : List PyVal)
    (h : l.any (fun e =>
        match e with
        | .str s => strContains sep s
        | _ => true) = true) :
    ∃ e, SyncStorage.validEventList sep l = .error e := by
  induction l with
  | nil => simp at h
  | cons a t ih =>
    cases a with
    | str s =>
      by_cases hs : strContains sep s
      · exact ⟨"Events contain illegal substring",
          by simp [SyncStorage.validEventList, hs]⟩
      · simp only [List.any_cons, hs, Bool.false_or] at h
        obtain ⟨e, he⟩ := ih h
        exact ⟨e, by simp [SyncStorage.validEventList, hs, he]⟩
    | lst l' => exact ⟨"Wrong event type", rfl⟩
    | int n => exact ⟨"Wrong event type", rfl⟩

theorem validate_channels_events_error (sep : String)
    (cae : List (PyVal × PyVal))
    (h : cae.any (badChannelEvents sep) = true) :
    ∃ e, SyncStorage.validate_channels_events sep cae = .error e := by
  induction cae with
  | nil => simp at h
  | cons p rest ih =>
    obtain ⟨channel, events⟩ := p
    cases channel with
    | lst l => exact ⟨"Wrong channel type", rfl⟩
    | int n => exact ⟨"Wrong channel type", rfl⟩
    | str c =>
      cases events with
      | int n => exact ⟨"Wrong event type", rfl⟩
      | str s =>
        by_cases hs : strContains sep s
        · exact ⟨"Events contain illegal substring",
            by simp [SyncStorage.validate_channels_events, hs]⟩
        · simp only [List.any_cons, badChannelEvents, isStrVal, hs] at h
          simp only [Bool.not_true, Bool.false_or] at h
          obtain ⟨e, he⟩ := ih h
          exact ⟨e, by simp [SyncStorage.validate_channels_events, hs, he]⟩
      | lst l =>
        rcases hvl : SyncStorage.validEventList sep l with e | u
        · exact ⟨e, by simp [SyncStorage.validate_channels_events, hvl]⟩
        · have hl : l.any (fun e =>
              match e with
              | .str s => strContains sep s
              | _ => true) = false := by
            by_contra hc
            obtain ⟨e, he⟩ := validEventList_error sep l
              (by revert hc; cases l.any _ <;> simp)
            rw [hvl] at he
            cases he
          simp only [List.any_cons, badChannelEvents, isStrVal] at h
          simp only [Bool.not_true, Bool.false_or, hl, Bool.false_or] at h
          obtain ⟨e, he⟩ := ih h
          exact ⟨e, by simp [SyncStorage.validate_channels_events, hvl, he]⟩

/-- Claim C7: Validation precedes the backend: whenever the channel/event
argument of `set_and_publish` holds a non-string channel, a non-string
event, or an event containing the reserved separator `"___"`, the facade
raises a type error before any backend operation runs and the stored state
(dict and queue) is unchanged. -/
theorem set_and_publish_validation_first (ns : String) (s : FakeDB)
    (cae : List (PyVal × PyVal)) (data_map : Dict Bytes)
    (hbad : cae.any (badChannelEvents eventSeparator) = true) :
    (∃ e, (SyncStorage.set_and_publish ns s cae data_map).1 = .error e)
    ∧ (SyncStorage.set_and_publish ns s cae data_map).2 = s := by
  obtain ⟨e, he⟩ := validate_channels_events_error eventSeparator cae hbad
  constructor
  · exact ⟨e, by simp [SyncStorage.set_and_publish, he]⟩
  · simp [SyncStorage.set_and_publish, he]

/-- Witness for `set_and_publish_validation_first`: an event containing the
separator `"___"` is rejected and the state survives unchanged. -/
theorem set_and_publish_validation_first_witness :
    (∃ e, (SyncStorage.set_and_publish "n" ⟨[], []⟩
        [(PyVal.str "ch", PyVal.str "a___b")] [("k", [1])]).1 = .error e)
    ∧ (SyncStorage.set_and_publish "n" ⟨[], []⟩
        [(PyVal.str "ch", PyVal.str "a___b")] [("k", [1])]).2 = (⟨[], []⟩ : FakeDB) :=
  set_and_publish_validation_first "n" ⟨[], []⟩
    [(PyVal.str "ch", PyVal.str "a___b")] [("k", [1])] (by decide)

/-! ### C8: a bare string as the keys argument is split into characters -/

/-- Python `list(s)` on a string: the list of its characters as one-character
strings (this is what `SyncStorage.get` and `remove` do to a bare string
`keys` argument via `list(keys)`). -/
def listOfStr (s : String) : List String :=
  s.toList.map (fun c => String.mk [c])

/-- The keys normalisation of `remove_and_publish` (and `subscribe_channel`):
a bare string is wrapped into a one-element list instead. -/
def wrapStrKeys (s : String) : List String := [s]

theorem pySetKey_mem_of_mem {β : Type} (d : Dict β) (k : String) (v : β)
    (q : String × β) (hq : q ∈ pySetKey d k v) : q ∈ d ∨ q.1 = k := by
  induction d with
  | nil =>
    simp only [pySetKey, List.mem_singleton] at hq
    exact Or.inr (by rw [hq])
  | cons p t ih =>
    obtain ⟨a, b⟩ := p
    by_cases ha : a = k
    · subst ha
      simp only [pySetKey, if_pos rfl] at hq
      rcases List.mem_cons.mp hq with h | h
      · exact Or.inr (by rw [h])
      · exact Or.inl (List.mem_cons.mpr (Or.inr h))
    · simp only [pySetKey, if_neg ha] at hq
      rcases List.mem_cons.mp hq with h | h
      · exact Or.inl (List.mem_cons.mpr (Or.inl h))
      · rcases ih h with h' | h'
        · exact Or.inl (List.mem_cons.mpr (Or.inr h'))
        · exact Or.inr h'

theorem getLoop_keys_subset (db : Dict Bytes) :
    ∀ (ks : List String) (ret : Dict Bytes) (p : String × Bytes),
    p ∈ FakeDictBackend.getLoop db ks ret → p.1 ∈ ret.map Prod.fst ∨ p.1 ∈ ks
  | [], ret, p, hp => by
    left
    exact List.mem_map.mpr ⟨p, hp, rfl⟩
  | k :: ks, ret, p, hp => by
    simp only [FakeDictBackend.getLoop] at hp
    cases hv : lookupK db k with
    | none =>
      rw [hv] at hp
      rcases getLoop_keys_subset db ks ret p hp with h | h
      · exact Or.inl h
      · exact Or.inr (by simp [h])
    | some v =>
      rw [hv] at hp
      rcases getLoop_keys_subset db ks (pySetKey ret k v) p hp with h | h
      · by_cases hk : p.1 = k
        · exact Or.inr (by simp [hk])
        · left
          rcases List.mem_map.mp h with ⟨q, hq, hq1⟩
          have : q ∈ ret := by
            by_contra hqr
            have := pySetKey_mem_of_mem ret k v q hq
            rcases this with h' | h'
            · exact hqr h'
            · exact hk (by rw [← hq1, h'])
          exact List.mem_map.mpr ⟨q, this, hq1⟩
      · exact Or.inr (by simp [h])

theorem mem_get_keys (ns : String) (db : Dict Bytes) (ks : List String)
    (p : String × Bytes) (hp : p ∈ SyncStorage.get ns db ks) : p.1 ∈ ks := by
  simp only [SyncStorage.get] at hp
  rcases List.mem_filterMap.mp hp with ⟨a, ha, hfa⟩
  cases hl : lookupK (FakeDictBackend.get ns db ks) a with
  | none =>
    rw [hl] at hfa
    cases hfa
  | some v =>
    rw [hl] at hfa
    have hp1 : p = (a, v) := by
      simpa using hfa.symm
    have hamem : a ∈ (FakeDictBackend.get ns db ks).map Prod.fst :=
      (sortedStrings_perm _).mem_iff.mp ha
    rcases List.mem_map.mp hamem with ⟨q, hq, hq1⟩
    rcases getLoop_keys_subset db ks [] q hq with h' | h'
    · simp at h'
    · rw [hp1]
      exact hq1 ▸ h'

theorem length_of_mem_listOfStr (k' k : String) (h : k' ∈ listOfStr k) :
    k'.length = 1 := by
  rcases List.mem_map.mp h with ⟨c, _, hc⟩
  rw [← hc]
  rfl

/-- Claim C8: The facade's `get` converts a bare string `keys` argument with
`list()`, so the operation runs on each character of the string as its own
key: for every key of length greater than one, `get(ns, k)` right after
`set(ns, {k: v})` does not return `{k: v}` — unlike `remove_and_publish`
(and `subscribe_channel`), which wrap a bare string into a one-element
list. -/
theorem string_keys_split_into_characters (ns : String) (db : Dict Bytes)
    (k : String) (v : Bytes) (hk : 1 < k.length) :
    SyncStorage.get ns (SyncStorage.set ns db [(k, v)]) (listOfStr k) ≠ [(k, v)]
    ∧ listOfStr k ≠ wrapStrKeys k := by
  constructor
  · intro he
    have hmem : (k, v) ∈ SyncStorage.get ns (SyncStorage.set ns db [(k, v)])
        (listOfStr k) := by
      rw [he]
      simp
    have hkeys : k ∈ listOfStr k :=
      mem_get_keys ns (SyncStorage.set ns db [(k, v)]) (listOfStr k) (k, v) hmem
    have h1 := length_of_mem_listOfStr k k hkeys
    omega
  · intro he
    have h1 : (listOfStr k).length = k.length := by
      rw [listOfStr, List.length_map]
      rfl
    rw [he] at h1
    simp [wrapStrKeys] at h1
    omega

/-- Witness for `string_keys_split_into_characters` at the two-character
key "ab". -/
theorem string_keys_split_into_characters_witness :
    (SyncStorage.get "n" (SyncStorage.set "n" [] [("ab", [7])]) (listOfStr "ab")
        ≠ [("ab", [7])])
    ∧ listOfStr "ab" ≠ wrapStrKeys "ab" :=
  string_keys_split_into_characters "n" [] "ab" [7] (by decide)

/-! ### C9: wire key encoding -/

/-- Embeds `RedisBackend.__add_key_ns_prefix`: a key travels on the wire as
`'{' + ns + '},' + key`. -/
def RedisBackend.add_key_ns (ns key : String) : String :=
  "\x7b" ++ ns ++ "\x7d," ++ key

/-- Python `split(',', 1)` on a character list: `none` when there is no
comma, otherwise the part before and the part after the first comma. -/
def splitFirstComma : List Char → Option (List Char × List Char)
  | [] => none
  | c :: cs =>
    if c = ',' then some ([], cs)
    else (splitFirstComma cs).map (fun p => (c :: p.1, p.2))

/-- Embeds `RedisBackend.__strip_ns_from_bin_keys` on one already-decoded wire key:
split at the first comma; reject a key with no comma, otherwise keep the
remainder after it. -/
def RedisBackend.strip_ns_from_key (rediskey : String) : Except String String :=
  match splitFirstComma rediskey.toList with
  | none => .error "key has no namespace prefix"
  | some p => .ok (String.mk p.2)

/-- Claim C9 counterexample: For a namespace containing a comma the wire-key
round trip breaks: decoding splits at the *first* comma, which then lies
inside the namespace part, so the key "k" comes back as "b},k". -/
theorem wire_key_round_trip_fails_for_comma_namespace :
    RedisBackend.strip_ns_from_key (RedisBackend.add_key_ns "a,b" "k")
      = Except.ok "b\x7d,k" ∧ "b\x7d,k" ≠ "k" :=
  ⟨rfl, by decide⟩

theorem splitFirstComma_append (l r : List Char) (h : ',' ∉ l) :
    splitFirstComma (l ++ ',' :: r) = some (l, r) := by
  induction l with
  | nil => simp [splitFirstComma]
  | cons c cs ih =>
    have hc : c ≠ ',' := fun e => h (by simp [e])
    have hcs : ',' ∉ cs := fun e => h (by simp [e])
    simp [splitFirstComma, hc, ih hcs]

/-- Claim C9 amended: For every namespace that contains no comma and every key
(commas in the key are fine), decoding the wire encoding
`'{' + ns + '},' + key` at the first comma yields the original key; when the
namespace itself contains a comma the round trip instead returns a suffix of
the namespace glued to the key. -/
theorem wire_key_round_trip (ns key : String) (h : ',' ∉ ns.toList) :
    RedisBackend.strip_ns_from_key (RedisBackend.add_key_ns ns key)
      = Except.ok key := by
  have hlist : (RedisBackend.add_key_ns ns key).toList
      = ('{' :: ns.toList ++ ['}']) ++ ',' :: key.toList := by
    simp [RedisBackend.add_key_ns, String.toList]
  have hnc : ',' ∉ '{' :: ns.toList ++ ['}'] := by
    intro hm
    rcases List.mem_cons.mp hm with h' | h'
    · cases h'
    · rcases List.mem_append.mp h' with h'' | h''
      · exact h h''
      · simp at h''
  unfold RedisBackend.strip_ns_from_key
  rw [hlist, splitFirstComma_append _ _ hnc]
  cases key
  rfl

/-- Witness for `wire_key_round_trip`: a comma inside the key survives the
round trip. -/
theorem wire_key_round_trip_witness :
    RedisBackend.strip_ns_from_key (RedisBackend.add_key_ns "ns" "k,2")
      = Except.ok "k,2" :=
  wire_key_round_trip "ns" "k,2" (by decide)

/-! ### C10: configuration completion -/

/-- The Python loop `for i in range(len(l), len(addrs)): l.append(l[i - 1])`,
which appends the current last element once per missing slot. -/
def extendRepeatLast (l : List String) : Nat → List String
  | 0 => l
  | n + 1 => extendRepeatLast (l ++ [l.getLastD ""]) n

/-- Embeds `_Configuration._complete_configuration`: with no sentinel ports
configured, pad the (non-empty) port list to the number of addresses by
repeating the last port; with sentinel ports configured, pad the sentinel
port list and the (non-empty) sentinel master-name list instead, and leave
the ports alone. -/
def Configuration.complete_configuration
    (addrs ports sentinel_ports sentinel_names : List String) :
    List String × List String × List String × List String :=
  if sentinel_ports.length = 0 then
    (addrs,
      if addrs.length > ports.length ∧ 0 < ports.length then
        extendRepeatLast ports (addrs.length - ports.length)
      else ports,
      sentinel_ports, sentinel_names)
  else
    (addrs, ports,
      if addrs.length > sentinel_ports.length then
        extendRepeatLast sentinel_ports (addrs.length - sentinel_ports.length)
      else sentinel_ports,
      if addrs.length > sentinel_names.length ∧ 0 < sentinel_names.length then
        extendRepeatLast sentinel_names (addrs.length - sentinel_names.length)
      else sentinel_names)

/-- Claim C10 counterexample: A configuration with two addresses and an empty
port list is left with the empty port list: the completion step only pads a
*non-empty* port list, so the two lists do not end up with equal length. -/
theorem complete_configuration_empty_ports_untouched :
    (Configuration.complete_configuration ["a", "b"] [] [] []).2.1 = []
    ∧ (Configuration.complete_configuration ["a", "b"] [] [] []).2.1.length
      ≠ (Configuration.complete_configuration ["a", "b"] [] [] []).1.length := by
  constructor
  · rfl
  · decide

theorem extendRepeatLast_eq (n : Nat) : ∀ (l : List String),
    extendRepeatLast l n = l ++ List.replicate n (l.getLastD "") := by
  induction n with
  | zero => intro l; simp [extendRepeatLast]
  | succ n ih =>
    intro l
    show extendRepeatLast (l ++ [l.getLastD ""]) n = _
    rw [ih (l ++ [l.getLastD ""]), List.getLastD_concat, List.append_assoc]
    simp [List.replicate_succ]

/-- Claim C10 amended: The completion step pads the port list by repeating the
last known port until it is as long as the address list only when the port
list is non-empty and no sentinel ports are configured; when sentinel ports
are configured, the sentinel port list is padded the same way (and the
sentinel master-name list too when non-empty) while the plain port list is
left alone; an empty port list stays empty. -/
theorem complete_configuration_pads (addrs ports sentinel_ports sentinel_names :
    List String) :
    (sentinel_ports.length = 0 → 0 < ports.length → ports.length < addrs.length →
      (Configuration.complete_configuration addrs ports sentinel_ports
          sentinel_names).2.1
        = ports ++ List.replicate (addrs.length - ports.length) (ports.getLastD "")
      ∧ (Configuration.complete_configuration addrs ports sentinel_ports
          sentinel_names).2.1.length = addrs.length)
    ∧ (0 < sentinel_ports.length → sentinel_ports.length < addrs.length →
      (Configuration.complete_configuration addrs ports sentinel_ports
          sentinel_names).2.2.1
        = sentinel_ports ++ List.replicate (addrs.length - sentinel_ports.length)
            (sentinel_ports.getLastD "")
      ∧ (Configuration.complete_configuration addrs ports sentinel_ports
          sentinel_names).2.2.1.length = addrs.length
      ∧ (Configuration.complete_configuration addrs ports sentinel_ports
          sentinel_names).2.1 = ports)
    ∧ (0 < sentinel_ports.length → 0 < sentinel_names.length →
        sentinel_names.length < addrs.length →
      (Configuration.complete_configuration addrs ports sentinel_ports
          sentinel_names).2.2.2
        = sentinel_names ++ List.replicate (addrs.length - sentinel_names.length)
            (sentinel_names.getLastD "")
      ∧ (Configuration.complete_configuration addrs ports sentinel_ports
          sentinel_names).2.2.2.length = addrs.length) := by
  refine ⟨?_, ?_, ?_⟩
  · intro h0 hp hlt
    have hcond : addrs.length > ports.length ∧ 0 < ports.length := ⟨hlt, hp⟩
    have heq : Configuration.complete_configuration addrs ports sentinel_ports
          sentinel_names
        = (addrs, extendRepeatLast ports (addrs.length - ports.length),
           sentinel_ports, sentinel_names) := by
      unfold Configuration.complete_configuration
      rw [if_pos h0, if_pos hcond]
    rw [heq, extendRepeatLast_eq]
    refine ⟨rfl, ?_⟩
    show (ports ++ List.replicate (addrs.length - ports.length)
        (ports.getLastD "")).length = addrs.length
    simp only [List.length_append, List.length_replicate]
    omega
  · intro hs hlt
    have h0 : ¬ sentinel_ports.length = 0 := by omega
    have hcond : addrs.length > sentinel_ports.length := hlt
    have heq : Configuration.complete_configuration addrs ports sentinel_ports
          sentinel_names
        = (addrs, ports,
           extendRepeatLast sentinel_ports (addrs.length - sentinel_ports.length),
           if addrs.length > sentinel_names.length ∧ 0 < sentinel_names.length then
             extendRepeatLast sentinel_names (addrs.length - sentinel_names.length)
           else sentinel_names) := by
      unfold Configuration.complete_configuration
      rw [if_neg h0, if_pos hcond]
    rw [heq, extendRepeatLast_eq]
    refine ⟨rfl, ?_, rfl⟩
    show (sentinel_ports ++ List.replicate (addrs.length - sentinel_ports.length)
        (sentinel_ports.getLastD "")).length = addrs.length
    simp only [List.length_append, List.length_replicate]
    omega
  · intro hs hn hlt
    have h0 : ¬ sentinel_ports.length = 0 := by omega
    have hcond : addrs.length > sentinel_names.length ∧ 0 < sentinel_names.length :=
      ⟨hlt, hn⟩
    have heq : Configuration.complete_configuration addrs ports sentinel_ports
          sentinel_names
        = (addrs, ports,
           if addrs.length > sentinel_ports.length then
             extendRepeatLast sentinel_ports (addrs.length - sentinel_ports.length)
           else sentinel_ports,
           extendRepeatLast sentinel_names (addrs.length - sentinel_names.length)) := by
      unfold Configuration.complete_configuration
      rw [if_neg h0, if_pos hcond]
    rw [heq, extendRepeatLast_eq (addrs.length - sentinel_names.length) sentinel_names]
    refine ⟨rfl, ?_⟩
    show (sentinel_names ++ List.replicate (addrs.length - sentinel_names.length)
        (sentinel_names.getLastD "")).length = addrs.length
    simp only [List.length_append, List.length_replicate]
    omega

end RicSdl
